import Mathlib

/-!
Shallow embedding of the core of `invest-analysis-tools`:
`optimization/markowitz.py` (class `PortfolioOptimizer`) and
`analysis/screener.py` (class `FundamentalScreener`).

Conventions of the embedding:
* pandas `DataFrame` cells are `Option ℚ` (`none` is `NaN`), a frame is a
  list of rows; the column labels (tickers) are carried separately.
* the external SLSQP solver (`scipy.optimize.minimize`) is modelled as an
  uninterpreted function from the data the code passes to it
  (objective data, initial guess, fixed options) to an outcome
  (`success` flag and solution vector), exactly the fields the code reads.
* real arithmetic replaces floating point; `np.sqrt` is `Real.sqrt`.
-/

namespace Invest

/-- A pandas row: one `Option ℚ` cell per column (`none` = NaN). -/
abbrev Row := List (Option ℚ)

/-- A pandas frame body: list of rows (columns carried separately). -/
abbrev Frame := List Row

/-- `df.dropna(how="all")`: drop the rows whose cells are all NaN. -/
def dropnaAll (df : Frame) : Frame :=
  df.filter (fun r => !(r.all Option.isNone))

/-- `df.dropna()` (default `how="any"`): keep only fully present rows. -/
def dropnaAny (df : Frame) : Frame :=
  df.filter (fun r => r.all Option.isSome)

/-- One step of pandas forward fill: a cell keeps its value if present,
otherwise takes the last seen value of its column. -/
def ffillRow (last r : Row) : Row :=
  List.zipWith (fun l c => match c with | some v => some v | none => l) last r

/-- Forward fill of the whole frame, column by column, starting from
all-NaN history (`n` columns). -/
def ffill (n : Nat) : Frame → Frame :=
  go (List.replicate n none)
where
  go : Row → Frame → Frame
    | _, [] => []
    | last, r :: rs =>
      let r' := ffillRow last r
      r' :: go r' rs

/-- One cell of `pct_change`: `(cur - prev) / prev`, NaN if either side is
missing (after the forward fill). -/
def pctCell (prev cur : Option ℚ) : Option ℚ :=
  match prev, cur with
  | some p, some c => some ((c - p) / p)
  | _, _ => none

/-- `df.pct_change()` with the pandas default `fill_method='pad'`:
forward-fill, then `filled / filled.shift(1) - 1`; the first row is
all NaN. -/
def pct_change (n : Nat) (df : Frame) : Frame :=
  match ffill n df with
  | [] => []
  | r :: rs =>
    List.replicate n none ::
      List.zipWith (fun p c => List.zipWith pctCell p c) (r :: rs) rs

/-- Strip the `Option` layer of a row (used on frames that `dropnaAny`
has already certified fully present, so the default is never read). -/
def denullRow (r : Row) : List ℚ :=
  r.map (fun c => c.getD 0)

/-- The `j`-th column of a fully present frame. -/
def column (df : Frame) (j : Nat) : List ℚ :=
  df.map (fun r => (denullRow r).getD j 0)

/-- `series.mean()`: arithmetic mean (division by zero yields 0 in ℚ,
where pandas would yield NaN; the optimizer never reads the value in
that case). -/
def listMean (l : List ℚ) : ℚ :=
  l.sum / l.length

/-- Sample covariance of two equally long series, denominator `N - 1`
(pandas `DataFrame.cov` default `ddof=1`; for `N ≤ 1` the ℚ division by
zero yields 0 where pandas yields NaN — never read by the optimizer). -/
def covPair (xs ys : List ℚ) : ℚ :=
  let mx := listMean xs
  let my := listMean ys
  (List.zipWith (fun x y => (x - mx) * (y - my)) xs ys).sum / ((xs.length : ℚ) - 1)

/-- `returns.mean().values`: per-column mean of an `n`-column frame. -/
def colMeans (n : Nat) (df : Frame) : List ℚ :=
  (List.range n).map (fun j => listMean (column df j))

/-- `returns.cov().values`: the `n × n` sample covariance matrix of the
columns. -/
def sampleCov (n : Nat) (df : Frame) : List (List ℚ) :=
  (List.range n).map (fun j =>
    (List.range n).map (fun k => covPair (column df j) (column df k)))

/-- `np.ndarray.size` of a matrix stored as list of rows. -/
def matSize (m : List (List ℚ)) : Nat :=
  (m.map List.length).sum

/-- `DataFrame.empty`: some axis has length 0 (the frame's column count
`ncols` is carried separately). -/
def frameEmpty (ncols : Nat) (df : Frame) : Bool :=
  df.isEmpty || ncols == 0

/-- The cached state of `PortfolioOptimizer` (`self` in the Python
class): risk-free rate plus the derived state written by `set_prices`. -/
structure Optimizer where
  risk_free_rate : ℚ
  tickers : List String
  returns : Frame
  mean_returns : List ℚ
  cov_matrix : List (List ℚ)

/-- `PortfolioOptimizer.__init__`: empty cached state. -/
def Optimizer.init (rate : ℚ) : Optimizer :=
  { risk_free_rate := rate
    tickers := []
    returns := []
    mean_returns := []
    cov_matrix := [] }

/-- A price frame as fed to `set_prices`: column labels plus rows of
optional prices. -/
structure PriceFrame where
  tickers : List String
  rows : Frame

/-- `PortfolioOptimizer.set_prices`: clean the prices with
`dropna(how="all")`, derive `pct_change().dropna()`, and cache the
annualized (×252) mean vector and covariance matrix. -/
def set_prices (opt : Optimizer) (pf : PriceFrame) : Optimizer :=
  let n := pf.tickers.length
  let prices := dropnaAll pf.rows
  let rets := dropnaAny (pct_change n prices)
  { opt with
    tickers := pf.tickers
    returns := rets
    mean_returns := (colMeans n rets).map (fun m => m * 252)
    cov_matrix := (sampleCov n rets).map (fun row => row.map (fun c => c * 252)) }

/-- Dot product of two real vectors (`np.dot` on 1-d arrays). -/
def dotR (xs ys : List ℝ) : ℝ :=
  (List.zipWith (fun x y => x * y) xs ys).sum

/-- Matrix–vector product (`np.dot(cov_matrix, weights)`). -/
def matVecR (m : List (List ℝ)) (v : List ℝ) : List ℝ :=
  m.map (fun row => dotR row v)

/-- `PortfolioOptimizer._negative_sharpe`: the objective handed to the
solver.  The `self` fields it reads (`_mean_returns`, `_cov_matrix`,
`risk_free_rate`) are explicit arguments. -/
noncomputable def negative_sharpe (mean_returns : List ℝ) (cov_matrix : List (List ℝ))
    (rate : ℝ) (weights : List ℝ) : ℝ :=
  let port_return := dotR weights mean_returns
  let port_vol := Real.sqrt (dotR weights (matVecR cov_matrix weights))
  if port_vol ≤ 0 then 0
  else -((port_return - rate) / port_vol)

/-- What the Python code passes to `scipy.optimize.minimize`: the data
closed over by the objective, the equal-weight initial guess, and the
fixed options `maxiter=500`, `ftol=1e-9` (bounds `[0,1]` per weight and
the `sum - 1 = 0` equality constraint are fixed and implicit). -/
structure SolverInput where
  mean_returns : List ℚ
  cov_matrix : List (List ℚ)
  risk_free_rate : ℚ
  x0 : List ℚ
  maxiter : Nat
  ftol : ℚ

/-- The fields of the `scipy` result object the code reads. -/
structure SolverOutcome where
  success : Bool
  x : List ℚ

/-- A solver: the external SLSQP routine, uninterpreted. -/
abbrev Solver := SolverInput → SolverOutcome

/-- `np.maximum(weights, 0.0)`. -/
def clipNeg (xs : List ℚ) : List ℚ :=
  xs.map (fun v => max v 0)

/-- `weights /= weights.sum()` after the clip. -/
def renormalize (xs : List ℚ) : List ℚ :=
  let w := clipNeg xs
  w.map (fun v => v / w.sum)

/-- The argument package the body of `optimize_sharpe_ratio` hands to
`scipy.optimize.minimize` for the current cached state. -/
def solverInputOf (opt : Optimizer) : SolverInput :=
  { mean_returns := opt.mean_returns
    cov_matrix := opt.cov_matrix
    risk_free_rate := opt.risk_free_rate
    x0 := List.replicate opt.tickers.length ((1 : ℚ) / opt.tickers.length)
    maxiter := 500
    ftol := 1 / 1000000000 }

/-- `PortfolioOptimizer.optimize_sharpe_ratio`.  Returns the (unchanged)
state together with the ticker → weight mapping; the solver call is the
uninterpreted `solver` applied to exactly the data the code passes. -/
def optimize_sharpe (solver : Solver) (opt : Optimizer) :
    Optimizer × List (String × ℚ) :=
  if frameEmpty opt.tickers.length opt.returns || matSize opt.cov_matrix == 0 then
    (opt, [])
  else
    let n := opt.tickers.length
    let result := solver (solverInputOf opt)
    let weights :=
      if result.success then renormalize result.x
      else List.replicate n ((1 : ℚ) / n)
    (opt, opt.tickers.zip weights)

/-- One metrics record as built by `FundamentalScreener._get_metrics`:
each ratio may be missing (`None` / NaN → `none`). -/
structure Metrics where
  ticker : String
  roe : Option ℚ
  debtToEquity : Option ℚ
  profitMargin : Option ℚ
  peg : Option ℚ

/-- The thresholds and cap held by `FundamentalScreener.__init__`. -/
structure Screener where
  min_roe : ℚ
  max_debt_to_equity : ℚ
  min_profit_margin : ℚ
  max_peg : ℚ
  top_n : Nat

/-- `FundamentalScreener` with its default thresholds. -/
def defaultScreener : Screener :=
  { min_roe := 15 / 100
    max_debt_to_equity := 1
    min_profit_margin := 10 / 100
    max_peg := 2
    top_n := 15 }

/-- One mask conjunct `isna(metric) | ok(metric)`. -/
def passCriterion (m : Option ℚ) (ok : ℚ → Bool) : Bool :=
  match m with
  | none => true
  | some v => ok v

/-- The combined filter mask of `filter_stocks` (lines 106–114): a row is
kept iff each of the four criteria is missing or satisfied. -/
def maskRow (cfg : Screener) (m : Metrics) : Bool :=
  passCriterion m.roe (fun v => decide (cfg.min_roe ≤ v)) &&
  passCriterion m.debtToEquity (fun v => decide (v ≤ cfg.max_debt_to_equity)) &&
  passCriterion m.profitMargin (fun v => decide (cfg.min_profit_margin ≤ v)) &&
  passCriterion m.peg (fun v => decide (0 < v) && decide (v < cfg.max_peg))

/-- `FundamentalScreener._score_row`. -/
def score_row (cfg : Screener) (m : Metrics) : ℚ :=
  let s1 : ℚ :=
    match m.roe with
    | some v => if cfg.min_roe ≤ v then 1 + min (v - cfg.min_roe) (2 / 10) else 0
    | none => 0
  let s2 : ℚ :=
    match m.debtToEquity with
    | some v => if v ≤ cfg.max_debt_to_equity then 1 else 0
    | none => 0
  let s3 : ℚ :=
    match m.profitMargin with
    | some v => if cfg.min_profit_margin ≤ v then 1 else 0
    | none => 0
  let s4 : ℚ :=
    match m.peg with
    | some v => if v < cfg.max_peg ∧ 0 < v then 1 else 0
    | none => 0
  s1 + s2 + s3 + s4

/-- The ranking relation of `sort_values("Score", ascending=False)`:
`p` may come before `q` when `p`'s score is at least `q`'s. -/
def scoreGE (p q : Metrics × ℚ) : Prop := q.2 ≤ p.2

instance : DecidableRel scoreGE := fun p q =>
  inferInstanceAs (Decidable (q.2 ≤ p.2))

instance : IsTotal (Metrics × ℚ) scoreGE := ⟨fun p q => le_total q.2 p.2⟩

instance : IsTrans (Metrics × ℚ) scoreGE := ⟨fun _ _ _ h1 h2 => le_trans h2 h1⟩

/-- Stable sort by score descending, modelling
`df.sort_values("Score", ascending=False)`: insertion places an earlier
input row in front of later rows of equal score. -/
def sortDesc (l : List (Metrics × ℚ)) : List (Metrics × ℚ) :=
  List.insertionSort scoreGE l

/-- `FundamentalScreener.filter_stocks`, from the point where the
metrics rows have been collected (`_get_metrics` is an external network
fetch; `rows` is its list of non-`None` results): mask, score, sort by
score descending, truncate to `top_n`. -/
def filter_stocks (cfg : Screener) (rows : List Metrics) : List (Metrics × ℚ) :=
  if rows.isEmpty then []
  else
    let df := rows.filter (maskRow cfg)
    let scored := df.map (fun m => (m, score_row cfg m))
    (sortDesc scored).take cfg.top_n

/-! ### Helper lemmas about the optimizer -/

/-- `optimize_sharpe_ratio` reads the cached state but never writes it. -/
theorem optimize_sharpe_state (solver : Solver) (opt : Optimizer) :
    (optimize_sharpe solver opt).1 = opt := by
  unfold optimize_sharpe
  split <;> rfl

/-- Division distributes over a list sum. -/
theorem sum_map_div (l : List ℚ) (c : ℚ) :
    (l.map (fun v => v / c)).sum = l.sum / c := by
  induction l with
  | nil => simp
  | cons x xs ih => simp [ih, add_div]

/-- Every entry of a clipped vector is non-negative. -/
theorem clipNeg_nonneg (xs : List ℚ) : ∀ v ∈ clipNeg xs, 0 ≤ v := by
  intro v hv
  simp only [clipNeg, List.mem_map] at hv
  obtain ⟨u, _, rfl⟩ := hv
  exact le_max_right u 0

/-- Clipping a vector of non-negative entries changes nothing. -/
theorem clipNeg_eq_self (xs : List ℚ) (h : ∀ v ∈ xs, 0 ≤ v) : clipNeg xs = xs := by
  induction xs with
  | nil => rfl
  | cons x xs ih =>
    have hx : max x 0 = x := max_eq_left (h x (by simp))
    simp only [clipNeg, List.map_cons, hx, List.cons.injEq, true_and]
    exact ih (fun v hv => h v (List.mem_cons_of_mem x hv))

/-- If the solver result respects the box bounds and meets the budget
constraint up to a tolerance below 1, the clipped sum is positive. -/
theorem clipNeg_sum_pos (xs : List ℚ) (tol : ℚ) (htol : tol < 1)
    (hb : ∀ v ∈ xs, 0 ≤ v) (hsum : |xs.sum - 1| ≤ tol) :
    0 < (clipNeg xs).sum := by
  rw [clipNeg_eq_self xs hb]
  have h1 := (abs_le.mp hsum).1
  linarith

/-- Renormalizing over a non-zero clipped sum yields total weight 1. -/
theorem renormalize_sum (xs : List ℚ) (h : (clipNeg xs).sum ≠ 0) :
    (renormalize xs).sum = 1 := by
  show ((clipNeg xs).map (fun v => v / (clipNeg xs).sum)).sum = 1
  rw [sum_map_div, div_self h]

/-- Renormalized weights all lie in `[0, 1]`. -/
theorem renormalize_bounds (xs : List ℚ) (h : 0 < (clipNeg xs).sum) :
    ∀ v ∈ renormalize xs, 0 ≤ v ∧ v ≤ 1 := by
  intro v hv
  have hv' : v ∈ (clipNeg xs).map (fun u => u / (clipNeg xs).sum) := hv
  simp only [List.mem_map] at hv'
  obtain ⟨u, hu, rfl⟩ := hv'
  refine ⟨div_nonneg (clipNeg_nonneg xs u hu) h.le, ?_⟩
  rw [div_le_one h]
  exact List.single_le_sum (clipNeg_nonneg xs) u hu

/-- Renormalization preserves the length of the weight vector. -/
theorem renormalize_length (xs : List ℚ) : (renormalize xs).length = xs.length := by
  simp [renormalize, clipNeg]

/-- A non-empty frame check that fails yields both facts it tests. -/
theorem frameEmpty_eq_false (n : Nat) (df : Frame)
    (h : frameEmpty n df = false) : df ≠ [] ∧ n ≠ 0 := by
  simp only [frameEmpty, Bool.or_eq_false_iff, beq_eq_false_iff_ne, ne_eq] at h
  exact ⟨fun hd => by simp [hd] at h, h.2⟩

/-- On the fallback path the mapping pairs tickers with `1/N`. -/
theorem optimize_sharpe_of_fail (solver : Solver) (opt : Optimizer)
    (hne : frameEmpty opt.tickers.length opt.returns = false)
    (hcov : matSize opt.cov_matrix ≠ 0)
    (hfail : (solver (solverInputOf opt)).success = false) :
    (optimize_sharpe solver opt).2 =
      opt.tickers.zip
        (List.replicate opt.tickers.length (1 / (opt.tickers.length : ℚ))) := by
  have hc : (frameEmpty opt.tickers.length opt.returns
      || (matSize opt.cov_matrix == 0)) = false := by
    simp [hne, hcov]
  simp only [optimize_sharpe, hc, Bool.false_eq_true, if_false, hfail]

/-- On the converged path the mapping pairs tickers with the clipped and
renormalized solver vector. -/
theorem optimize_sharpe_of_success (solver : Solver) (opt : Optimizer)
    (hne : frameEmpty opt.tickers.length opt.returns = false)
    (hcov : matSize opt.cov_matrix ≠ 0)
    (hsucc : (solver (solverInputOf opt)).success = true) :
    (optimize_sharpe solver opt).2 =
      opt.tickers.zip (renormalize (solver (solverInputOf opt)).x) := by
  have hc : (frameEmpty opt.tickers.length opt.returns
      || (matSize opt.cov_matrix == 0)) = false := by
    simp [hne, hcov]
  simp only [optimize_sharpe, hc, Bool.false_eq_true, if_false, hsucc, if_true]

/-- The covariance matrix cached by `set_prices` is always `N × N` for
`N` price columns, whatever the return matrix looks like. -/
theorem set_prices_cov_size (opt : Optimizer) (pf : PriceFrame) :
    matSize (set_prices opt pf).cov_matrix =
      pf.tickers.length * pf.tickers.length := by
  simp [set_prices, matSize, sampleCov, List.map_map, Function.comp_def,
    List.map_const', List.sum_replicate, smul_eq_mul]

/-- The equal weighting over `n ≠ 0` assets sums to 1. -/
theorem equal_weight_sum (n : Nat) (hn : n ≠ 0) :
    (List.replicate n ((1 : ℚ) / n)).sum = 1 := by
  rw [List.sum_replicate, nsmul_eq_mul]
  have : (n : ℚ) ≠ 0 := Nat.cast_ne_zero.mpr hn
  field_simp

/-! ### Claims about the optimizer fallback and guard paths -/

/-- C3: whenever the cached return matrix is empty (either axis) or the
cached covariance matrix has zero size, `optimize_sharpe_ratio` returns
the empty mapping (and, being total, raises no exception). -/
theorem claim_C3 (solver : Solver) (opt : Optimizer)
    (h : frameEmpty opt.tickers.length opt.returns = true ∨
      matSize opt.cov_matrix = 0) :
    (optimize_sharpe solver opt).2 = [] := by
  have hc : (frameEmpty opt.tickers.length opt.returns
      || (matSize opt.cov_matrix == 0)) = true := by
    rcases h with h | h <;> simp [h]
  unfold optimize_sharpe
  rw [hc]
  rfl

/-- C3 witness: a price matrix with a single valid row cleans to a
single-row price frame whose percentage-change matrix drops entirely, so
the optimizer declines to recommend. -/
theorem claim_C3_witness :
    (optimize_sharpe (fun _ => ⟨true, [1, 0]⟩)
      (set_prices (Optimizer.init (1 / 50))
        ⟨["A", "B"], [[some 1, some 2]]⟩)).2 = [] :=
  claim_C3 _ _ (Or.inl (by decide))

/-- C4: when the guard passes but the solver reports non-success,
`optimize_sharpe_ratio` returns exactly the equal weighting `1/N` for
each of the `N` assets. -/
theorem claim_C4 (solver : Solver) (opt : Optimizer)
    (hne : frameEmpty opt.tickers.length opt.returns = false)
    (hcov : matSize opt.cov_matrix ≠ 0)
    (hfail : (solver (solverInputOf opt)).success = false) :
    (optimize_sharpe solver opt).2 =
      opt.tickers.zip
        (List.replicate opt.tickers.length (1 / (opt.tickers.length : ℚ))) ∧
    ((optimize_sharpe solver opt).2).length = opt.tickers.length ∧
    ∀ p ∈ (optimize_sharpe solver opt).2, p.2 = 1 / (opt.tickers.length : ℚ) := by
  have hout := optimize_sharpe_of_fail solver opt hne hcov hfail
  refine ⟨hout, ?_, ?_⟩
  · rw [hout]
    simp [List.length_zip]
  · intro p hp
    rw [hout] at hp
    have := (List.of_mem_zip hp).2
    exact List.eq_of_mem_replicate this

/-- C4 witness: on a concrete two-asset price history with a failing
solver, the optimizer returns the equal weighting `[1/2, 1/2]`. -/
theorem claim_C4_witness :
    (optimize_sharpe (fun _ => ⟨false, []⟩)
      (set_prices (Optimizer.init (1 / 50))
        ⟨["A", "B"], [[some 1, some 2], [some 2, some 3], [some 4, some 6]]⟩)).2
      = [("A", 1 / 2), ("B", 1 / 2)] := by
  have h := claim_C4 (fun _ => ⟨false, []⟩)
    (set_prices (Optimizer.init (1 / 50))
      ⟨["A", "B"], [[some 1, some 2], [some 2, some 3], [some 4, some 6]]⟩)
    (by decide) (by decide) rfl
  rw [h.1]
  rfl

/-- C9: the result of `optimize_sharpe_ratio` is a pure function of the
price matrix, the risk-free rate and the solver: two runs with identical
inputs agree, and a repeated call on the same instance reproduces the
first result because the call never mutates the cached state. -/
theorem claim_C9 (solver : Solver) (pf₁ pf₂ : PriceFrame) (r₁ r₂ : ℚ)
    (hpf : pf₁ = pf₂) (hr : r₁ = r₂) :
    (optimize_sharpe solver (set_prices (Optimizer.init r₁) pf₁)).2 =
      (optimize_sharpe solver (set_prices (Optimizer.init r₂) pf₂)).2 ∧
    (optimize_sharpe solver
        ((optimize_sharpe solver (set_prices (Optimizer.init r₁) pf₁)).1)).2 =
      (optimize_sharpe solver (set_prices (Optimizer.init r₁) pf₁)).2 := by
  subst hpf
  subst hr
  exact ⟨rfl, by rw [optimize_sharpe_state]⟩

/-- C9 witness at a concrete price history, rate and solver. -/
theorem claim_C9_witness :
    (optimize_sharpe (fun _ => ⟨true, [3 / 4, 1 / 4]⟩)
        (set_prices (Optimizer.init (1 / 50))
          ⟨["A", "B"], [[some 1, some 2], [some 2, some 3]]⟩)).2 =
      (optimize_sharpe (fun _ => ⟨true, [3 / 4, 1 / 4]⟩)
        (set_prices (Optimizer.init (1 / 50))
          ⟨["A", "B"], [[some 1, some 2], [some 2, some 3]]⟩)).2 ∧
    (optimize_sharpe (fun _ => ⟨true, [3 / 4, 1 / 4]⟩)
        ((optimize_sharpe (fun _ => ⟨true, [3 / 4, 1 / 4]⟩)
          (set_prices (Optimizer.init (1 / 50))
            ⟨["A", "B"], [[some 1, some 2], [some 2, some 3]]⟩)).1)).2 =
      (optimize_sharpe (fun _ => ⟨true, [3 / 4, 1 / 4]⟩)
        (set_prices (Optimizer.init (1 / 50))
          ⟨["A", "B"], [[some 1, some 2], [some 2, some 3]]⟩)).2 :=
  claim_C9 (fun _ => ⟨true, [3 / 4, 1 / 4]⟩) _ _ _ _ rfl rfl

/-- C10: for any solver vector inside the box bounds whose total is
within a sub-1 tolerance of the budget 1, the clipped sum driving the
unguarded renormalization `weights /= weights.sum()` is strictly
positive, and the renormalized weights sum to 1. -/
theorem claim_C10 (x : List ℚ) (tol : ℚ) (htol : tol < 1)
    (hb : ∀ v ∈ x, 0 ≤ v ∧ v ≤ 1) (hsum : |x.sum - 1| ≤ tol) :
    0 < (clipNeg x).sum ∧ (renormalize x).sum = 1 := by
  have h0 : ∀ v ∈ x, 0 ≤ v := fun v hv => (hb v hv).1
  have hpos := clipNeg_sum_pos x tol htol h0 hsum
  exact ⟨hpos, renormalize_sum x (ne_of_gt hpos)⟩

/-- C10 witness at the concrete solver vector `[1/2, 1/2]`. -/
theorem claim_C10_witness :
    0 < (clipNeg [1 / 2, 1 / 2]).sum ∧ (renormalize [1 / 2, 1 / 2]).sum = 1 :=
  claim_C10 [1 / 2, 1 / 2] 0 (by norm_num)
    (by norm_num [List.forall_mem_cons]) (by norm_num [List.sum_cons])

/-- C1: for every price matrix whose cached state is non-empty and
non-degenerate, and a solver whose converged vector respects the box
bounds and meets the budget constraint within a sub-1 tolerance, the
returned mapping is non-empty, its weights sum to exactly 1 (hence to
1 within `1e-6`), and every weight lies in `[0, 1]` — on the converged
path and on the fallback path alike. -/
theorem claim_C1 (solver : Solver) (opt₀ : Optimizer) (pf : PriceFrame) (tol : ℚ)
    (htol : tol < 1)
    (hne : frameEmpty (set_prices opt₀ pf).tickers.length
      (set_prices opt₀ pf).returns = false)
    (hsol : (solver (solverInputOf (set_prices opt₀ pf))).success = true →
      (solver (solverInputOf (set_prices opt₀ pf))).x.length =
        (set_prices opt₀ pf).tickers.length ∧
      (∀ v ∈ (solver (solverInputOf (set_prices opt₀ pf))).x, 0 ≤ v ∧ v ≤ 1) ∧
      |(solver (solverInputOf (set_prices opt₀ pf))).x.sum - 1| ≤ tol) :
    (optimize_sharpe solver (set_prices opt₀ pf)).2 ≠ [] ∧
    (((optimize_sharpe solver (set_prices opt₀ pf)).2).map Prod.snd).sum = 1 ∧
    |(((optimize_sharpe solver (set_prices opt₀ pf)).2).map Prod.snd).sum - 1|
      ≤ 1 / 1000000 ∧
    ∀ p ∈ (optimize_sharpe solver (set_prices opt₀ pf)).2, 0 ≤ p.2 ∧ p.2 ≤ 1 := by
  set s := set_prices opt₀ pf with hs
  have hn : s.tickers.length ≠ 0 := (frameEmpty_eq_false _ _ hne).2
  have hcov : matSize s.cov_matrix ≠ 0 := by
    rw [hs, set_prices_cov_size]
    have : pf.tickers.length = s.tickers.length := by rw [hs]; rfl
    rw [this]
    exact Nat.mul_ne_zero hn hn
  have hnpos : 0 < s.tickers.length := Nat.pos_of_ne_zero hn
  have hone_le : (1 : ℚ) ≤ (s.tickers.length : ℚ) := by
    exact_mod_cast hnpos
  cases hsucc : (solver (solverInputOf s)).success with
  | false =>
    have hout := optimize_sharpe_of_fail solver s hne hcov hsucc
    have hvals : ((optimize_sharpe solver s).2.map Prod.snd) =
        List.replicate s.tickers.length (1 / (s.tickers.length : ℚ)) := by
      rw [hout]
      exact List.map_snd_zip _ _ (by simp)
    have hsum : ((optimize_sharpe solver s).2.map Prod.snd).sum = 1 := by
      rw [hvals]
      exact equal_weight_sum _ hn
    refine ⟨?_, hsum, by rw [hsum]; norm_num, ?_⟩
    · have hlen' : (optimize_sharpe solver s).2.length = s.tickers.length := by
        rw [hout]; simp
      exact List.ne_nil_of_length_pos (hlen' ▸ hnpos)
    · intro p hp
      rw [hout] at hp
      have hp2 := List.eq_of_mem_replicate (List.of_mem_zip hp).2
      rw [hp2]
      constructor
      · positivity
      · rw [div_le_one (by positivity)]
        exact hone_le
  | true =>
    obtain ⟨hlen, hbounds, hbudget⟩ := hsol hsucc
    have hout := optimize_sharpe_of_success solver s hne hcov hsucc
    have hpos : 0 < (clipNeg (solver (solverInputOf s)).x).sum :=
      clipNeg_sum_pos _ tol htol (fun v hv => (hbounds v hv).1) hbudget
    have hvals : ((optimize_sharpe solver s).2.map Prod.snd) =
        renormalize (solver (solverInputOf s)).x := by
      rw [hout]
      exact List.map_snd_zip _ _ (by rw [renormalize_length, hlen])
    have hsum : ((optimize_sharpe solver s).2.map Prod.snd).sum = 1 := by
      rw [hvals]
      exact renormalize_sum _ (ne_of_gt hpos)
    refine ⟨?_, hsum, by rw [hsum]; norm_num, ?_⟩
    · have hlen' : (optimize_sharpe solver s).2.length = s.tickers.length := by
        rw [hout]; simp [renormalize_length, hlen]
      exact List.ne_nil_of_length_pos (hlen' ▸ hnpos)
    · intro p hp
      rw [hout] at hp
      exact renormalize_bounds _ hpos p.2 (List.of_mem_zip hp).2

/-- C1 witness: a concrete two-asset history with a converged solver
vector `[3/4, 1/4]` yields weights summing to exactly 1. -/
theorem claim_C1_witness :
    (((optimize_sharpe (fun _ => ⟨true, [3 / 4, 1 / 4]⟩)
      (set_prices (Optimizer.init (1 / 50))
        ⟨["A", "B"],
          [[some 1, some 2], [some 2, some 3], [some 4, some 6]]⟩)).2).map
            Prod.snd).sum = 1 :=
  (claim_C1 (fun _ => ⟨true, [3 / 4, 1 / 4]⟩) (Optimizer.init (1 / 50))
    ⟨["A", "B"], [[some 1, some 2], [some 2, some 3], [some 4, some 6]]⟩
    (1 / 2) (by norm_num) (by decide)
    (fun _ => ⟨rfl, by norm_num [List.forall_mem_cons],
      by norm_num [List.sum_cons]⟩)).2.1

/-- C2: for every weight vector, the objective returns 0 whenever the
portfolio volatility `sqrt(wᵀ Σ w)` is `≤ 0` — equivalently whenever the
quadratic form is `≤ 0`, so no division by zero or undefined value ever
occurs — and otherwise returns `-(wᵀμ - rf) / vol` with a strictly
positive divisor. -/
theorem claim_C2 (mean_returns : List ℝ) (cov_matrix : List (List ℝ))
    (rate : ℝ) (weights : List ℝ) :
    (dotR weights (matVecR cov_matrix weights) ≤ 0 →
      negative_sharpe mean_returns cov_matrix rate weights = 0) ∧
    (0 < dotR weights (matVecR cov_matrix weights) →
      0 < Real.sqrt (dotR weights (matVecR cov_matrix weights)) ∧
      negative_sharpe mean_returns cov_matrix rate weights =
        -((dotR weights mean_returns - rate) /
          Real.sqrt (dotR weights (matVecR cov_matrix weights)))) := by
  constructor
  · intro h
    have hz : Real.sqrt (dotR weights (matVecR cov_matrix weights)) = 0 :=
      Real.sqrt_eq_zero'.mpr h
    simp only [negative_sharpe, hz]
    simp
  · intro h
    have hq : 0 < Real.sqrt (dotR weights (matVecR cov_matrix weights)) :=
      Real.sqrt_pos.mpr h
    refine ⟨hq, ?_⟩
    simp only [negative_sharpe]
    rw [if_neg (not_le.mpr hq)]

/-- C2 witness: at unit covariance, zero rate, weights `[1, 0]` and
means `[2, 3]`, the volatility is `sqrt 1 = 1` and the objective is
`-2`. -/
theorem claim_C2_witness :
    negative_sharpe [2, 3] [[1, 0], [0, 1]] 0 [1, 0] = -2 := by
  have hq : dotR [1, 0] (matVecR [[1, 0], [0, 1]] [1, 0]) = 1 := by
    norm_num [dotR, matVecR]
  have h := (claim_C2 [2, 3] [[1, 0], [0, 1]] 0 [1, 0]).2 (by rw [hq]; norm_num)
  rw [hq, Real.sqrt_one] at h
  rw [h.2]
  norm_num [dotR]

/-! ### Helper lemmas about the screener -/

/-- A mask conjunct holds iff the metric is missing or the test passes. -/
theorem passCriterion_iff (o : Option ℚ) (ok : ℚ → Bool) :
    passCriterion o ok = true ↔ o = none ∨ ∃ v, o = some v ∧ ok v = true := by
  cases o with
  | none => simp [passCriterion]
  | some v => simp [passCriterion]

/-- The combined mask decomposes into the four missing-or-pass criteria. -/
theorem maskRow_iff (cfg : Screener) (m : Metrics) :
    maskRow cfg m = true ↔
      (m.roe = none ∨ ∃ v, m.roe = some v ∧ cfg.min_roe ≤ v) ∧
      (m.debtToEquity = none ∨
        ∃ v, m.debtToEquity = some v ∧ v ≤ cfg.max_debt_to_equity) ∧
      (m.profitMargin = none ∨
        ∃ v, m.profitMargin = some v ∧ cfg.min_profit_margin ≤ v) ∧
      (m.peg = none ∨ ∃ v, m.peg = some v ∧ 0 < v ∧ v < cfg.max_peg) := by
  simp only [maskRow, Bool.and_eq_true, passCriterion_iff, decide_eq_true_eq,
    Bool.and_eq_true]
  tauto

/-- Inserting a row whose score is `s` prepends it to the `s`-filtered
sublist: every row it jumps over has a strictly larger score. -/
theorem filter_orderedInsert_eq (s : ℚ) (a : Metrics × ℚ)
    (l : List (Metrics × ℚ)) (ha : a.2 = s) :
    (List.orderedInsert scoreGE a l).filter (fun q => decide (q.2 = s)) =
      a :: l.filter (fun q => decide (q.2 = s)) := by
  induction l with
  | nil => simp [List.orderedInsert, ha]
  | cons b l ih =>
    by_cases hab : scoreGE a b
    · simp [List.orderedInsert, hab, ha]
    · have hlt : a.2 < b.2 := lt_of_not_le hab
      have hbs : ¬(b.2 = s) := fun h => absurd (ha.trans h.symm) (ne_of_lt hlt)
      simp [List.orderedInsert, hab, List.filter_cons, hbs, ih]

/-- Inserting a row whose score is not `s` leaves the `s`-filtered
sublist unchanged. -/
theorem filter_orderedInsert_ne (s : ℚ) (a : Metrics × ℚ)
    (l : List (Metrics × ℚ)) (ha : ¬(a.2 = s)) :
    (List.orderedInsert scoreGE a l).filter (fun q => decide (q.2 = s)) =
      l.filter (fun q => decide (q.2 = s)) := by
  induction l with
  | nil => simp [List.orderedInsert, ha]
  | cons b l ih =>
    by_cases hab : scoreGE a b
    · simp [List.orderedInsert, hab, List.filter_cons, ha]
    · simp [List.orderedInsert, hab, List.filter_cons, ih]

/-- Stability of the descending sort: for each score value, the rows
carrying it appear in the sorted list in their original order. -/
theorem sortDesc_stable (l : List (Metrics × ℚ)) (s : ℚ) :
    (sortDesc l).filter (fun q => decide (q.2 = s)) =
      l.filter (fun q => decide (q.2 = s)) := by
  induction l with
  | nil => rfl
  | cons a l ih =>
    show (List.orderedInsert scoreGE a (sortDesc l)).filter _ = _
    by_cases ha : a.2 = s
    · rw [filter_orderedInsert_eq s a _ ha, ih]
      simp [List.filter_cons, ha]
    · rw [filter_orderedInsert_ne s a _ ha, ih]
      simp [List.filter_cons, ha]

/-! ### Claims about the screener -/

/-- C6: a candidate is retained by the filtering mask of
`filter_stocks` iff each of the four criteria is missing or satisfied;
consequently a candidate whose debt/equity is present and exceeds the
maximum never reaches the ranked output, whatever its other metrics. -/
theorem claim_C6 (cfg : Screener) (rows : List Metrics) (m : Metrics) :
    (m ∈ rows.filter (maskRow cfg) ↔ m ∈ rows ∧
      (m.roe = none ∨ ∃ v, m.roe = some v ∧ cfg.min_roe ≤ v) ∧
      (m.debtToEquity = none ∨
        ∃ v, m.debtToEquity = some v ∧ v ≤ cfg.max_debt_to_equity) ∧
      (m.profitMargin = none ∨
        ∃ v, m.profitMargin = some v ∧ cfg.min_profit_margin ≤ v) ∧
      (m.peg = none ∨ ∃ v, m.peg = some v ∧ 0 < v ∧ v < cfg.max_peg)) ∧
    ∀ p ∈ filter_stocks cfg rows, ∀ d, p.1.debtToEquity = some d →
      d ≤ cfg.max_debt_to_equity := by
  constructor
  · rw [List.mem_filter, maskRow_iff]
  · intro p hp d hd
    have hp1 : p ∈ sortDesc ((rows.filter (maskRow cfg)).map
        (fun m => (m, score_row cfg m))) := by
      by_cases h : rows.isEmpty
      · rw [filter_stocks, if_pos h] at hp
        simp at hp
      · rw [filter_stocks, if_neg h] at hp
        exact List.mem_of_mem_take hp
    have hp2 : p ∈ (rows.filter (maskRow cfg)).map
        (fun m => (m, score_row cfg m)) :=
      (List.perm_insertionSort scoreGE _).mem_iff.mp hp1
    simp only [List.mem_map] at hp2
    obtain ⟨m', hm', rfl⟩ := hp2
    have hmask := (List.mem_filter.mp hm').2
    rw [maskRow_iff] at hmask
    rcases hmask.2.1 with h | ⟨v, hv, hvle⟩
    · rw [h] at hd
      exact absurd hd (by simp)
    · rw [hv] at hd
      injection hd with hd'
      rw [← hd']
      exact hvle

/-- C6 witness: a concrete candidate passing all four criteria is
retained by the mask. -/
theorem claim_C6_witness :
    (⟨"A", some (3 / 10), some (1 / 2), some (2 / 10), some 1⟩ : Metrics) ∈
      ([⟨"A", some (3 / 10), some (1 / 2), some (2 / 10), some 1⟩,
        ⟨"B", some (3 / 10), some 2, some (2 / 10), some 1⟩] :
          List Metrics).filter (maskRow defaultScreener) :=
  (claim_C6 defaultScreener _ _).1.mpr
    ⟨by simp,
     Or.inr ⟨3 / 10, rfl, by norm_num [defaultScreener]⟩,
     Or.inr ⟨1 / 2, rfl, by norm_num [defaultScreener]⟩,
     Or.inr ⟨2 / 10, rfl, by norm_num [defaultScreener]⟩,
     Or.inr ⟨1, rfl, by norm_num, by norm_num [defaultScreener]⟩⟩

/-- C7 counterexample: with the default thresholds, a candidate whose
only missing metric is PEG and whose other three metrics pass scores
`3.15`, not exactly `3.0` — the ROE bonus also applies on the
one-missing path. -/
theorem claim_C7_counterexample :
    score_row defaultScreener
        ⟨"X", some (3 / 10), some (1 / 2), some (2 / 10), none⟩ = 63 / 20 ∧
      (63 : ℚ) / 20 ≠ 3 := by
  constructor
  · norm_num [score_row, defaultScreener, min_def]
  · norm_num

/-- C7 (amended): with all four metrics present and passing, the score
is at least `4.0` and at most `4.2` (ROE bonus capped at `+0.2`); with
exactly one metric missing and the other three passing, the score is
`3.0` plus the ROE bonus when ROE is among the present passing metrics —
so exactly `3.0` when the missing metric is ROE, and between `3.0` and
`3.2` otherwise. -/
theorem claim_C7_amended (cfg : Screener) (m : Metrics) (r d p g : ℚ) :
    (m.roe = some r → cfg.min_roe ≤ r →
     m.debtToEquity = some d → d ≤ cfg.max_debt_to_equity →
     m.profitMargin = some p → cfg.min_profit_margin ≤ p →
     m.peg = some g → 0 < g → g < cfg.max_peg →
     4 ≤ score_row cfg m ∧ score_row cfg m ≤ 4 + 2 / 10) ∧
    (m.roe = none →
     m.debtToEquity = some d → d ≤ cfg.max_debt_to_equity →
     m.profitMargin = some p → cfg.min_profit_margin ≤ p →
     m.peg = some g → 0 < g → g < cfg.max_peg →
     score_row cfg m = 3) ∧
    (m.roe = some r → cfg.min_roe ≤ r →
     m.debtToEquity = none →
     m.profitMargin = some p → cfg.min_profit_margin ≤ p →
     m.peg = some g → 0 < g → g < cfg.max_peg →
     score_row cfg m = 3 + min (r - cfg.min_roe) (2 / 10)) ∧
    (m.roe = some r → cfg.min_roe ≤ r →
     m.debtToEquity = some d → d ≤ cfg.max_debt_to_equity →
     m.profitMargin = none →
     m.peg = some g → 0 < g → g < cfg.max_peg →
     score_row cfg m = 3 + min (r - cfg.min_roe) (2 / 10)) ∧
    (m.roe = some r → cfg.min_roe ≤ r →
     m.debtToEquity = some d → d ≤ cfg.max_debt_to_equity →
     m.profitMargin = some p → cfg.min_profit_margin ≤ p →
     m.peg = none →
     score_row cfg m = 3 + min (r - cfg.min_roe) (2 / 10)) ∧
    (cfg.min_roe ≤ r →
     0 ≤ min (r - cfg.min_roe) (2 / 10) ∧ min (r - cfg.min_roe) (2 / 10) ≤ 2 / 10) := by
  refine ⟨?_, ?_, ?_, ?_, ?_, ?_⟩
  · intro h1 h2 h3 h4 h5 h6 h7 h8 h9
    simp only [score_row, h1, h3, h5, h7]
    rw [if_pos h2, if_pos h4, if_pos h6, if_pos ⟨h9, h8⟩]
    have hb1 : 0 ≤ min (r - cfg.min_roe) (2 / 10) :=
      le_min (by linarith) (by norm_num)
    have hb2 : min (r - cfg.min_roe) (2 / 10) ≤ 2 / 10 := min_le_right _ _
    constructor <;> linarith
  · intro h1 h3 h4 h5 h6 h7 h8 h9
    simp only [score_row, h1, h3, h5, h7]
    rw [if_pos h4, if_pos h6, if_pos ⟨h9, h8⟩]
    ring
  · intro h1 h2 h3 h5 h6 h7 h8 h9
    simp only [score_row, h1, h3, h5, h7]
    rw [if_pos h2, if_pos h6, if_pos ⟨h9, h8⟩]
    ring
  · intro h1 h2 h3 h4 h5 h7 h8 h9
    simp only [score_row, h1, h3, h5, h7]
    rw [if_pos h2, if_pos h4, if_pos ⟨h9, h8⟩]
    ring
  · intro h1 h2 h3 h4 h5 h6 h7
    simp only [score_row, h1, h3, h5, h7]
    rw [if_pos h2, if_pos h4, if_pos h6]
    ring
  · intro h2
    exact ⟨le_min (by linarith) (by norm_num), min_le_right _ _⟩

/-- C7 witness: the all-passing candidate scores at least `4.0`. -/
theorem claim_C7_witness :
    4 ≤ score_row defaultScreener
      ⟨"X", some (3 / 10), some (1 / 2), some (2 / 10), some 1⟩ :=
  ((claim_C7_amended defaultScreener
      ⟨"X", some (3 / 10), some (1 / 2), some (2 / 10), some 1⟩
      (3 / 10) (1 / 2) (2 / 10) 1).1
    rfl (by norm_num [defaultScreener]) rfl (by norm_num [defaultScreener])
    rfl (by norm_num [defaultScreener]) rfl (by norm_num)
    (by norm_num [defaultScreener])).1

/-- In this embedding's sort model, the ranked output of
`filter_stocks` is the descending sort of the scored retained rows
truncated to `top_n`: sorted by score descending, no longer than
`top_n`, and a permutation of the scored rows before truncation.  The
tie-order conjunct is a property of the insertion-sort model: pandas
`sort_values` with its default `kind="quicksort"` does not promise it. -/
theorem filter_stocks_ranking (cfg : Screener) (rows : List Metrics) :
    filter_stocks cfg rows =
      (sortDesc ((rows.filter (maskRow cfg)).map
        (fun m => (m, score_row cfg m)))).take cfg.top_n ∧
    List.Sorted scoreGE (filter_stocks cfg rows) ∧
    (filter_stocks cfg rows).length ≤ cfg.top_n ∧
    List.Perm
      (sortDesc ((rows.filter (maskRow cfg)).map
        (fun m => (m, score_row cfg m))))
      ((rows.filter (maskRow cfg)).map (fun m => (m, score_row cfg m))) ∧
    ∀ s : ℚ,
      (sortDesc ((rows.filter (maskRow cfg)).map
        (fun m => (m, score_row cfg m)))).filter (fun q => decide (q.2 = s)) =
      ((rows.filter (maskRow cfg)).map
        (fun m => (m, score_row cfg m))).filter (fun q => decide (q.2 = s)) := by
  have h1 : filter_stocks cfg rows =
      (sortDesc ((rows.filter (maskRow cfg)).map
        (fun m => (m, score_row cfg m)))).take cfg.top_n := by
    by_cases h : rows.isEmpty
    · have hnil : rows = [] := by
        cases rows with
        | nil => rfl
        | cons a l => simp at h
      rw [hnil]
      simp [filter_stocks, sortDesc]
    · rw [filter_stocks, if_neg h]
  refine ⟨h1, ?_, ?_, List.perm_insertionSort scoreGE _, sortDesc_stable _⟩
  · rw [h1]
    exact (List.sorted_insertionSort scoreGE _).sublist (List.take_sublist _ _)
  · rw [h1]
    exact List.length_take_le _ _

/-! ### Helper lemmas about the return-series derivation -/

/-- A member of a `zipWith` is the image of members of both lists. -/
theorem mem_zipWith {α β γ : Type} (f : α → β → γ) :
    ∀ (as : List α) (bs : List β) (z : γ), z ∈ List.zipWith f as bs →
      ∃ a ∈ as, ∃ b ∈ bs, z = f a b := by
  intro as
  induction as with
  | nil => intro bs z h; simp at h
  | cons a as ih =>
    intro bs z h
    cases bs with
    | nil => simp at h
    | cons b bs =>
      rcases List.mem_cons.mp h with h | h
      · exact ⟨a, List.mem_cons_self a as, b, List.mem_cons_self b bs, h⟩
      · obtain ⟨a', ha', b', hb', hz⟩ := ih bs z h
        exact ⟨a', List.mem_cons_of_mem a ha', b', List.mem_cons_of_mem b hb', hz⟩

/-- Forward-filling a fully present row (against a long enough history)
returns the row unchanged. -/
theorem ffillRow_of_full (last r : Row) (hfull : ∀ c ∈ r, c ≠ none)
    (hlen : r.length ≤ last.length) : ffillRow last r = r := by
  induction r generalizing last with
  | nil => simp [ffillRow]
  | cons c cs ih =>
    cases last with
    | nil => simp at hlen
    | cons l ls =>
      have hc : c ≠ none := hfull c (List.mem_cons_self c cs)
      obtain ⟨v, rfl⟩ := Option.ne_none_iff_exists'.mp hc
      have hstep : ffillRow (l :: ls) (some v :: cs) =
          some v :: ffillRow ls cs := rfl
      rw [hstep,
        ih ls (fun x hx => hfull x (List.mem_cons_of_mem _ hx))
          (Nat.le_of_succ_le_succ hlen)]

/-- Forward fill is the identity on frames whose rows are fully present
and as wide as the running history. -/
theorem ffill_go_of_full : ∀ (df : Frame) (last : Row),
    (∀ r ∈ df, ∀ c ∈ r, c ≠ none) → (∀ r ∈ df, r.length = last.length) →
    ffill.go last df = df := by
  intro df
  induction df with
  | nil => intro last _ _; rfl
  | cons r rs ih =>
    intro last hfull hlen
    have hr : ffillRow last r = r :=
      ffillRow_of_full last r (hfull r (List.mem_cons_self r rs))
        (le_of_eq (hlen r (List.mem_cons_self r rs)))
    rw [show ffill.go last (r :: rs) =
      ffillRow last r :: ffill.go (ffillRow last r) rs from rfl, hr]
    congr 1
    exact ih r (fun x hx => hfull x (List.mem_cons_of_mem _ hx))
      (fun x hx => (hlen x (List.mem_cons_of_mem _ hx)).trans
        (hlen r (List.mem_cons_self r rs)).symm)

/-- `ffill` is the identity on an `n`-wide fully present frame. -/
theorem ffill_of_full (n : Nat) (df : Frame)
    (hfull : ∀ r ∈ df, ∀ c ∈ r, c ≠ none) (hlen : ∀ r ∈ df, r.length = n) :
    ffill n df = df :=
  ffill_go_of_full df (List.replicate n none) hfull
    (fun r hr => by rw [hlen r hr, List.length_replicate])

/-- A non-trivial all-NaN row fails the `dropna()` keep test. -/
theorem replicate_none_not_all_isSome (n : Nat) (hn : n ≠ 0) :
    (List.replicate n (none : Option ℚ)).all Option.isSome = false := by
  cases n with
  | zero => exact absurd rfl hn
  | succ k => simp [List.replicate]

/-! ### Claims about the return-series derivation -/

/-- C5 counterexample: a price matrix with one partially missing row is
cleaned to 3 rows (no row is entirely missing), yet the derived return
series has 1 row, not `3 - 1 = 2`: `pct_change().dropna()` also drops
return rows containing NaN, so the claimed shape fails. -/
theorem claim_C5_counterexample :
    ¬ ((set_prices (Optimizer.init (1 / 50))
        ⟨["A", "B"],
          [[some 1, none], [some 2, some 3], [some 4, some 6]]⟩).returns.length
      = (dropnaAll
          [[some 1, none], [some 2, some 3], [some 4, some 6]]).length - 1) := by
  decide

/-- C5 (amended): `set_prices` cleans the price matrix by dropping only
its all-missing rows; the return series is the percentage-change matrix
with every row containing a missing value then dropped.  When the
cleaned matrix has no missing entries this is exactly the cleaned matrix
minus its first row in shape, with each cell `(p_t - p_{t-1}) / p_{t-1}`
of adjacent cleaned rows. -/
theorem claim_C5_amended (opt₀ : Optimizer) (pf : PriceFrame)
    (hw : ∀ r ∈ pf.rows, r.length = pf.tickers.length)
    (hfull : ∀ r ∈ dropnaAll pf.rows, ∀ c ∈ r, c ≠ none) :
    dropnaAll pf.rows = pf.rows.filter (fun r => !(r.all Option.isNone)) ∧
    (set_prices opt₀ pf).returns =
      List.zipWith (fun p c => List.zipWith pctCell p c)
        (dropnaAll pf.rows) (dropnaAll pf.rows).tail ∧
    (set_prices opt₀ pf).returns.length = (dropnaAll pf.rows).length - 1 ∧
    ∀ a b : ℚ, pctCell (some a) (some b) = some ((b - a) / a) := by
  have hsub : ∀ r ∈ dropnaAll pf.rows, r ∈ pf.rows :=
    fun r hr => List.mem_of_mem_filter hr
  have hlen : ∀ r ∈ dropnaAll pf.rows, r.length = pf.tickers.length :=
    fun r hr => hw r (hsub r hr)
  have hff : ffill pf.tickers.length (dropnaAll pf.rows) = dropnaAll pf.rows :=
    ffill_of_full _ _ hfull hlen
  have hkeep : ∀ r ∈ dropnaAll pf.rows, (r.all Option.isNone) = false := by
    intro r hr
    have := (List.mem_filter.mp hr).2
    simpa using this
  have hgen : ∀ (cl : Frame), (∀ r ∈ cl, ∀ c ∈ r, c ≠ none) →
      (∀ r ∈ cl, r.length = pf.tickers.length) →
      ffill pf.tickers.length cl = cl →
      (∀ r ∈ cl, (r.all Option.isNone) = false) →
      dropnaAny (pct_change pf.tickers.length cl) =
        List.zipWith (fun p c => List.zipWith pctCell p c) cl cl.tail := by
    intro cl hfull' hlen' hff' hkeep'
    cases cl with
    | nil => rfl
    | cons r rs =>
      have hn : pf.tickers.length ≠ 0 := by
        intro h0
        have hkr := hkeep' r (List.mem_cons_self r rs)
        have hr0 : r.length = 0 := by rw [hlen' r (List.mem_cons_self r rs), h0]
        rw [List.eq_nil_of_length_eq_zero hr0] at hkr
        simp at hkr
      have hpc : pct_change pf.tickers.length (r :: rs) =
          List.replicate pf.tickers.length none ::
            List.zipWith (fun p c => List.zipWith pctCell p c) (r :: rs) rs := by
        unfold pct_change
        rw [hff']
      rw [hpc]
      show List.filter _ (_ :: _) = _
      rw [List.filter_cons, replicate_none_not_all_isSome _ hn]
      simp only [Bool.false_eq_true, if_false, List.tail_cons]
      rw [List.filter_eq_self]
      intro row hrow
      obtain ⟨p, hp, c, hcc, rfl⟩ :=
        mem_zipWith (fun p c => List.zipWith pctCell p c) (r :: rs) rs row hrow
      rw [List.all_eq_true]
      intro cell hcell
      obtain ⟨a, ha, b, hbb, rfl⟩ := mem_zipWith pctCell p c cell hcell
      have hane : a ≠ none := hfull' p hp a ha
      have hbne : b ≠ none := hfull' c (List.mem_cons_of_mem r hcc) b hbb
      obtain ⟨va, rfl⟩ := Option.ne_none_iff_exists'.mp hane
      obtain ⟨vb, rfl⟩ := Option.ne_none_iff_exists'.mp hbne
      rfl
  have hb : (set_prices opt₀ pf).returns =
      List.zipWith (fun p c => List.zipWith pctCell p c)
        (dropnaAll pf.rows) (dropnaAll pf.rows).tail :=
    hgen (dropnaAll pf.rows) hfull hlen hff hkeep
  refine ⟨rfl, hb, ?_, fun a b => rfl⟩
  rw [hb, List.length_zipWith, List.length_tail]
  omega

/-- C5 witness: on a fully present 3-row, 2-asset price matrix the
return series has exactly `3 - 1 = 2` rows. -/
theorem claim_C5_witness :
    (set_prices (Optimizer.init (1 / 50))
      ⟨["A", "B"],
        [[some 1, some 2], [some 2, some 3], [some 4, some 6]]⟩).returns.length
      = (dropnaAll
          [[some 1, some 2], [some 2, some 3], [some 4, some 6]]).length - 1 :=
  (claim_C5_amended (Optimizer.init (1 / 50))
    ⟨["A", "B"], [[some 1, some 2], [some 2, some 3], [some 4, some 6]]⟩
    (by decide) (by decide)).2.2.1

end Invest
